import Mathlib

/-!
Verification of the RAG (retrieval-augmented generation) document system.

The repository ships the browser client (`src/ui/main.js`) and a README
describing the FastAPI backend; the backend pipeline itself
(chunker, fingerprinter, anonymizer, ingestor, retriever, answer composer)
is specified but its source is not in the corpus, so those components are
modelled from the specification, as marked on each definition.
Client-side behaviour (file validation, query construction, query history,
document list, source rendering) is embedded directly from `main.js`.
-/

namespace RAG

/-! ## Chunker (modelled from the spec) -/

/-- Modelled from the spec: the Chunker's sliding-window pass, missing from
the source corpus.  "Slide a window of `size` characters across `text`,
advancing by `size - overlap` each step; the final window may be shorter
than `size` and is still emitted."  `step` is `size - overlap`.  Windows are
paired with their `sequence_index`. -/
def chunkWindows (l : List Char) (size step idx : ℕ) : List (List Char × ℕ) :=
  if h : l = [] ∨ step = 0 then []
  else (l.take size, idx) :: chunkWindows (l.drop step) size step (idx + 1)
termination_by l.length
decreasing_by
  push_neg at h
  have hl : 0 < l.length := List.length_pos.mpr h.1
  have hs : 0 < step := Nat.pos_of_ne_zero h.2
  simp only [List.length_drop]
  omega

/-- Modelled from the spec: `chunk(text, size, overlap)`; `overlap >= size`
is a configuration error that fails fast (here: `none`), empty input
produces an empty sequence. -/
def chunk (text : List Char) (size overlap : ℕ) : Option (List (List Char × ℕ)) :=
  if size ≤ overlap then none
  else some (chunkWindows text size (size - overlap) 0)

/-! ## Fingerprinter and VectorIndex (modelled from the spec) -/

/-- Modelled from the spec: `fingerprint(source, sequence_index, text)`,
missing from the source corpus.  The backend uses a SHA-1 digest of the
concatenation of `source`, `sequence_index` and `text`; the digest itself is
irrelevant to the claims, so the hash is modelled by the (deterministic,
injective) tagged concatenation of its three inputs. -/
def fingerprint (source : String) (sequence_index : ℕ) (text : List Char) : String :=
  source ++ "|" ++ toString sequence_index ++ "|" ++ String.mk text

/-- Metadata persisted with each vector, per the spec's Chunk record. -/
structure ChunkMeta where
  source : String
  text : List Char
  sequence_index : ℕ
  deriving Repr, DecidableEq

/-- Modelled from the spec: the VectorIndex capability, a store of
(id, metadata) pairs keyed by chunk id.  (The embedding vector is a
function of the chunk text and plays no role in the ingestion claims, so it
is folded into the metadata.) -/
abbrev VectorIndex : Type := List (String × ChunkMeta)

/-- Modelled from the spec: `VectorIndex.upsert(id, ...)` — "if `id`
already exists, overwrite vector/metadata idempotently", otherwise insert. -/
def upsert (idx : VectorIndex) (id : String) (m : ChunkMeta) : VectorIndex :=
  if idx.any (fun p => p.1 = id) then
    idx.map (fun p => if p.1 = id then (id, m) else p)
  else
    idx ++ [(id, m)]

/-- The ids stored in the index. -/
def keys (idx : VectorIndex) : List String := idx.map (fun p => p.1)

/-! ## Ingestor (modelled from the spec) -/

/-- Modelled from the spec: per-document ingestion steps, missing from the
source corpus — Chunker, then per chunk the Fingerprinter id, then
`VectorIndex.upsert(id, vector, metadata)`.  Returns the chunk ids in
order together with the updated index. -/
def ingestDoc (idx : VectorIndex) (source : String) (text : List Char)
    (size overlap : ℕ) : List String × VectorIndex :=
  let chunks := (chunk text size overlap).getD []
  let pairs := chunks.map (fun c =>
    (fingerprint source c.2 c.1, ChunkMeta.mk source c.1 c.2))
  (pairs.map (fun p => p.1),
   pairs.foldl (fun acc p => upsert acc p.1 p.2) idx)

/-! ## Retriever (modelled from the spec) -/

/-- A chunk as stored in the VectorIndex, per the spec's Chunk record. -/
structure StoredChunk where
  id : String
  source : String
  page_number : Option Int
  sequence_index : ℕ
  date_added : String
  text : String
  deriving Repr, DecidableEq

/-- Modelled from the spec: the conjunctive metadata predicate
`{source?, min_page?, max_page?}`.  (A page bound on a pageless chunk is
taken as unsatisfied; the spec leaves this case open and it does not bear
on any claim.) -/
structure QFilter where
  source : Option String := none
  min_page : Option Int := none
  max_page : Option Int := none
  deriving Repr, DecidableEq

def matchesFilter (f : QFilter) (c : StoredChunk) : Bool :=
  (match f.source with
   | none => true
   | some s => c.source = s) &&
  (match f.min_page with
   | none => true
   | some m => match c.page_number with
     | none => false
     | some p => m ≤ p) &&
  (match f.max_page with
   | none => true
   | some m => match c.page_number with
     | none => false
     | some p => p ≤ m)

/-- A candidate chunk with its query-relative similarity. -/
structure Scored where
  chunk : StoredChunk
  similarity : ℚ
  deriving Repr, DecidableEq

/-- The spec's ranking key — descending similarity, ties broken by
ascending `sequence_index`, then by `chunk_id` — encoded lexicographically
(similarity negated so that the lexicographic order is the rank order). -/
def rankKey (a : Scored) : Lex (ℚ × Lex (ℕ × String)) :=
  toLex (-a.similarity, toLex (a.chunk.sequence_index, a.chunk.id))

/-- Boolean rank comparison used to sort candidates. -/
def rankLE (a b : Scored) : Bool := decide (rankKey a ≤ rankKey b)

/-- The spec's RetrievedSource projection of a Chunk plus similarity. -/
structure RetrievedSource where
  chunk_id : String
  source : String
  page_number : Option Int
  date_added : String
  similarity : ℚ
  snippet : String
  deriving Repr, DecidableEq

def project (s : Scored) : RetrievedSource :=
  ⟨s.chunk.id, s.chunk.source, s.chunk.page_number, s.chunk.date_added,
   s.similarity, s.chunk.text⟩

/-- Modelled from the spec: the Retriever pipeline, missing from the source
corpus — filter candidates by the metadata predicate, score them by the
(black-box) embedder/cosine similarity `sim`, take the `k` nearest in the
deterministic rank order, then exclude results with
`similarity < score_threshold`. -/
def retrieveScored (sim : StoredChunk → ℚ) (k : ℕ) (t : ℚ) (f : QFilter)
    (idx : List StoredChunk) : List Scored :=
  let cands := idx.filter (fun c => matchesFilter f c)
  let scored := cands.map (fun c => Scored.mk c (sim c))
  let ranked := scored.mergeSort rankLE
  (ranked.take k).filter (fun s => t ≤ s.similarity)

/-- Modelled from the spec: `retrieve` returns the ranked, thresholded
candidates projected to RetrievedSource records. -/
def retrieve (sim : StoredChunk → ℚ) (k : ℕ) (t : ℚ) (f : QFilter)
    (idx : List StoredChunk) : List RetrievedSource :=
  (retrieveScored sim k t f idx).map project

/-! ## AnswerComposer (modelled from the spec) -/

/-- The composer's result: the LLM text plus the original source list. -/
structure Answer where
  text : String
  sources : List RetrievedSource
  deriving Repr, DecidableEq

/-- Modelled from the spec: the context block — each retrieved chunk's
**anonymized** text concatenated in rank order, each tagged with its source
attribution.  The Anonymizer itself is a capability parameter `anonymize`;
only where it is applied matters to the claims. -/
def buildContext (anonymize : String → String)
    (sources : List RetrievedSource) : String :=
  String.intercalate "\n\n"
    (sources.map (fun s => "[" ++ s.source ++ "] " ++ anonymize s.snippet))

/-- Modelled from the spec: the fixed instruction template plus the user's
raw question; when no sources were retrieved the template explicitly says
no context was found. -/
def promptFor (anonymize : String → String) (question : String)
    (sources : List RetrievedSource) : String :=
  if sources.isEmpty then
    "No relevant context was found. Answer only from the provided context; " ++
      "be concise.\n\nQuestion: " ++ question
  else
    "Answer only from the provided context; be concise.\n\nContext:\n" ++
      buildContext anonymize sources ++ "\n\nQuestion: " ++ question

/-- Modelled from the spec:
`compose(question, retrievedSources) -> Answer{text, sources}` — invokes
the (black-box) LLM on the anonymized context and returns the **original**
`retrievedSources` list for display. -/
def compose (anonymize llm : String → String) (question : String)
    (sources : List RetrievedSource) : Answer :=
  { text := llm (promptFor anonymize question sources), sources := sources }

/-! ## Browser client, embedded from `src/ui/main.js` -/

/-- A file handed to the upload handler (JS `File`: `name`, `type`,
`size`). -/
structure FileInfo where
  name : String
  type : String
  size : ℕ
  deriving Repr, DecidableEq

/-- From `processFiles` (`src/ui/main.js:174-178`): a file of MIME type
`application/pdf`. -/
def pdfFile (f : FileInfo) : Bool := f.type = "application/pdf"

/-- From `processFiles` (`src/ui/main.js:174-178`): a plain-text file — MIME
type `text/plain` or a name ending in `.txt` (JS
`file.name.endsWith('.txt')`, modelled as a character-suffix test). -/
def plainTextFile (f : FileInfo) : Bool :=
  ".txt".data.isSuffixOf f.name.data || f.type = "text/plain"

/-- The `validFiles` predicate of `processFiles` (`src/ui/main.js:174-178`). -/
def validFile (f : FileInfo) : Bool := pdfFile f || plainTextFile f

/-- Embedded from `processFiles` (`src/ui/main.js:173-208`): filter the
valid files; when none remain, show a validation error and stop (`none`,
no request); otherwise the kept files form the multipart payload posted to
`/ingest` (`some payload`). -/
def processFiles (files : List FileInfo) : Option (List FileInfo) :=
  let validFiles := files.filter validFile
  if validFiles.isEmpty then none else some validFiles

/-- A document entry of the client-side `documents` list
(`handleUploadSuccess`, `src/ui/main.js:277-283`). -/
structure DocEntry where
  name : String
  size : ℕ
  type : String
  uploadDate : String
  chunks : ℕ
  deriving Repr, DecidableEq

/-- A client-side query-history record (`handleQuerySuccess`,
`src/ui/main.js:469-474`). -/
structure QueryRecord where
  question : String
  answer : String
  sources : List RetrievedSource
  timestamp : String
  deriving Repr, DecidableEq

/-- The `/query` response consumed by the client. -/
structure QueryResponse where
  answer : String
  sources : List RetrievedSource
  deriving Repr, DecidableEq

/-- The client-side state of `RAGSystem`: the `documents` and `queries`
arrays of `src/ui/main.js`. -/
structure UIState where
  documents : List DocEntry
  queries : List QueryRecord
  deriving Repr, DecidableEq

/-- JS `parseInt(field.value) || d`: `NaN` (empty or unparsable input,
modelled as `none`) and `0` are falsy, so both fall back to the default. -/
def jsIntOr (v : Option Int) (d : Int) : Int :=
  match v with
  | none => d
  | some x => if x = 0 then d else x

/-- JS `parseFloat(field.value) || d`, same falsy semantics. -/
def jsRatOr (v : Option ℚ) (d : ℚ) : ℚ :=
  match v with
  | none => d
  | some x => if x = 0 then d else x

/-- The JSON body built by `handleQuery` (`src/ui/main.js:414-421`). -/
structure QueryBody where
  question : String
  k : Int
  score_threshold : ℚ
  filterSource : Option String
  deriving Repr, DecidableEq

/-- Embedded from `handleQuery` (`src/ui/main.js:414-421`): the body posted
to `/query`.  The numeric fields are modelled after `parseInt`/`parseFloat`
of the form inputs (`none` = NaN). `source: value || null` maps the empty
selection to `none`. -/
def buildQueryBody (question : String) (kInput : Option Int)
    (tInput : Option ℚ) (sourceValue : String) : QueryBody :=
  { question := question,
    k := jsIntOr kInput 3,
    score_threshold := jsRatOr tInput (6/10),
    filterSource := if sourceValue = "" then none else some sourceValue }

/-- Embedded from `handleQuerySuccess` (`src/ui/main.js:465-488`): prepend
the new record (`unshift`), then keep only the last 10 queries. -/
def handleQuerySuccess (st : UIState) (result : QueryResponse)
    (query now : String) : UIState :=
  let qs := QueryRecord.mk query result.answer result.sources now :: st.queries
  { st with queries := if qs.length > 10 then qs.take 10 else qs }

/-- Embedded from `handleUploadSuccess` (`src/ui/main.js:267-291`): for each
uploaded file, append a document entry only when no existing entry has the
same name; `chunks` is `Math.floor(inserted_chunks / files.length)`. -/
def handleUploadSuccess (st : UIState) (inserted_chunks : ℕ)
    (files : List FileInfo) (now : String) : UIState :=
  { st with documents := files.foldl (fun docs file =>
      if docs.any (fun doc => doc.name = file.name) then docs
      else docs ++ [DocEntry.mk file.name file.size file.type now
        (inserted_chunks / files.length)]) st.documents }

/-- Embedded from `deleteDocument` (`src/ui/main.js:589-597`), confirmed
branch: remove every document whose name equals `docName`. -/
def deleteDocument (st : UIState) (docName : String) : UIState :=
  { st with documents := st.documents.filter (fun doc => doc.name ≠ docName) }

/-- JS `Math.round`: round half toward positive infinity. -/
def jsRound (x : ℚ) : Int := Int.floor (x + 1/2)

/-- One rendered source card of `displaySources`
(`src/ui/main.js:540-556`). -/
structure SourceCard where
  title : String
  similarityPercent : Int
  snippet : String
  deriving Repr, DecidableEq

/-- Embedded from `displaySources` (`src/ui/main.js:528-556`): the title is
`source.source || 'Unknown Source'`, the similarity is rendered as
`Math.round(source.similarity * 100)` percent, and the snippet is
`source.snippet` verbatim. -/
def renderSource (s : RetrievedSource) : SourceCard :=
  { title := if s.source = "" then "Unknown Source" else s.source,
    similarityPercent := jsRound (s.similarity * 100),
    snippet := s.snippet }

/-- Embedded from `displaySources` (`src/ui/main.js:528-556`): render every
source card in order. -/
def displaySources (sources : List RetrievedSource) : List SourceCard :=
  sources.map renderSource

/-! ## Theorems -/

/-- Number of windows emitted: one per multiple of `step` below `l.length`. -/
theorem chunkWindows_length (l : List Char) (size step idx : ℕ) (hs : 0 < step) :
    (chunkWindows l size step idx).length = (l.length + step - 1) / step := by
  by_cases h : l = []
  · subst h
    rw [chunkWindows]
    simp [Nat.div_eq_of_lt, hs]
  · rw [chunkWindows]
    have hl : 0 < l.length := List.length_pos.mpr h
    simp only [h, hs.ne', or_self, dite_false, List.length_cons]
    rw [chunkWindows_length (l.drop step) size step (idx + 1) hs]
    simp only [List.length_drop]
    rcases Nat.lt_or_ge l.length step with hlt | hge
    · have h1 : l.length - step = 0 := Nat.sub_eq_zero_of_le hlt.le
      rw [h1]
      rw [Nat.div_eq_of_lt (by omega)]
      rw [(Nat.div_eq_of_lt_le (by omega) (by omega) : (l.length + step - 1) / step = 1)]
    · have key : l.length + step - 1 = (l.length - step + step - 1) + step := by omega
      rw [key, Nat.add_div_right _ hs]
termination_by l.length
decreasing_by
  simp only [List.length_drop]
  have : 0 < l.length := List.length_pos.mpr h
  omega

/-- Window `n` of the sliding pass starts at offset `n * step` and carries
sequence index `idx + n`. -/
theorem chunkWindows_get? (l : List Char) (size step idx n : ℕ) (hs : 0 < step)
    (hn : n * step < l.length) :
    (chunkWindows l size step idx).get? n =
      some ((l.drop (n * step)).take size, idx + n) := by
  induction n generalizing l idx with
  | zero =>
    have h : ¬(l = [] ∨ step = 0) := by
      push_neg
      constructor
      · intro he; rw [he] at hn; simp at hn
      · omega
    rw [chunkWindows]
    simp [h]
  | succ m ih =>
    have h : ¬(l = [] ∨ step = 0) := by
      push_neg
      constructor
      · intro he; rw [he] at hn; simp at hn
      · omega
    rw [chunkWindows]
    simp only [h, dite_false, List.get?_cons_succ]
    have hm : m * step < (l.drop step).length := by
      simp only [List.length_drop]
      have : (m + 1) * step = m * step + step := by ring
      omega
    rw [ih (l.drop step) (idx + 1) hm]
    rw [List.drop_drop]
    have h1 : step + m * step = (m + 1) * step := by ring
    have h2 : idx + 1 + m = idx + (m + 1) := by ring
    rw [h1, h2]

/-- **C5** — Chunking coverage: for `size = 800`, `overlap = 20` on any
1850-character text, the Chunker produces exactly 3 windows; window `n+1`
starts at character offset `n * (size - overlap) = n * 780`; and the last
window (290 characters) is shorter than 800 characters. -/
theorem c5_chunking_coverage (text : List Char) (h : text.length = 1850) :
    chunk text 800 20 = some (chunkWindows text 800 780 0) ∧
    (chunkWindows text 800 780 0).length = 3 ∧
    (∀ n : ℕ, n * 780 < 1850 →
      (chunkWindows text 800 780 0).get? n =
        some ((text.drop (n * 780)).take 800, n)) ∧
    (∃ w, (chunkWindows text 800 780 0).get? 2 = some w ∧
      w.1.length = 290 ∧ w.1.length < 800) := by
  have hget : ∀ n : ℕ, n * 780 < 1850 →
      (chunkWindows text 800 780 0).get? n =
        some ((text.drop (n * 780)).take 800, n) := by
    intro n hn
    have := chunkWindows_get? text 800 780 0 n (by norm_num) (by rw [h]; exact hn)
    simpa using this
  refine ⟨by simp [chunk], ?_, hget, ?_⟩
  · rw [chunkWindows_length text 800 780 0 (by norm_num), h]
  · refine ⟨((text.drop (2 * 780)).take 800, 2), hget 2 (by norm_num), ?_, ?_⟩
    · simp only [List.length_take, List.length_drop, h]
      norm_num
    · simp only [List.length_take, List.length_drop, h]
      norm_num

/-- Witness for C5 at the concrete text of 1850 repeated characters. -/
theorem c5_chunking_coverage_witness :
    (List.replicate 1850 'a').length = 1850 ∧
    (chunkWindows (List.replicate 1850 'a') 800 780 0).length = 3 :=
  ⟨by rw [List.length_replicate],
   (c5_chunking_coverage (List.replicate 1850 'a') (by rw [List.length_replicate])).2.1⟩

theorem length_upsert_of_mem (idx : VectorIndex) (id : String) (m : ChunkMeta)
    (h : id ∈ keys idx) : (upsert idx id m).length = idx.length := by
  have hany : idx.any (fun p => p.1 = id) = true := by
    rw [List.any_eq_true]
    simp only [keys, List.mem_map] at h
    obtain ⟨p, hp, hid⟩ := h
    exact ⟨p, hp, by simp [hid]⟩
  simp [upsert, hany]

theorem keys_upsert_subset (idx : VectorIndex) (id : String) (m : ChunkMeta) :
    ∀ x ∈ keys idx, x ∈ keys (upsert idx id m) := by
  intro x hx
  simp only [keys, List.mem_map] at hx ⊢
  obtain ⟨p, hp, hpx⟩ := hx
  unfold upsert
  by_cases hany : idx.any (fun p => p.1 = id) = true
  · simp only [hany, if_true]
    by_cases hpid : p.1 = id
    · exact ⟨(id, m), List.mem_map.mpr ⟨p, hp, by simp [hpid]⟩, by
        simp [← hpx, hpid]⟩
    · exact ⟨p, List.mem_map.mpr ⟨p, hp, by simp [hpid]⟩, hpx⟩
  · simp only [hany, if_false]
    exact ⟨p, List.mem_append_left _ hp, hpx⟩

theorem mem_keys_upsert_self (idx : VectorIndex) (id : String) (m : ChunkMeta) :
    id ∈ keys (upsert idx id m) := by
  unfold upsert
  by_cases hany : idx.any (fun p => p.1 = id) = true
  · simp only [hany, if_true, keys]
    rw [List.any_eq_true] at hany
    obtain ⟨p, hp, hpid⟩ := hany
    simp only [decide_eq_true_eq] at hpid
    refine List.mem_map.mpr ⟨(id, m), List.mem_map.mpr ⟨p, hp, ?_⟩, rfl⟩
    simp [hpid]
  · rw [Bool.not_eq_true] at hany
    simp [hany, keys]

/-- Folding upserts: every upserted id ends up among the keys, and existing
keys survive. -/
theorem keys_foldl_upsert (ps : List (String × ChunkMeta)) (idx : VectorIndex) :
    (∀ p ∈ ps, p.1 ∈ keys (ps.foldl (fun acc q => upsert acc q.1 q.2) idx)) ∧
    (∀ x ∈ keys idx, x ∈ keys (ps.foldl (fun acc q => upsert acc q.1 q.2) idx)) := by
  induction ps generalizing idx with
  | nil => exact ⟨by simp, fun x hx => hx⟩
  | cons p ps ih =>
    refine ⟨?_, ?_⟩
    · intro q hq
      rcases List.mem_cons.mp hq with hq | hq
      · subst hq
        simp only [List.foldl_cons]
        exact (ih (upsert idx q.1 q.2)).2 q.1 (mem_keys_upsert_self idx q.1 q.2)
      · simp only [List.foldl_cons]
        exact (ih (upsert idx p.1 p.2)).1 q hq
    · intro x hx
      simp only [List.foldl_cons]
      exact (ih (upsert idx p.1 p.2)).2 x (keys_upsert_subset idx p.1 p.2 x hx)

/-- Folding upserts whose ids are all already present keeps the index size. -/
theorem length_foldl_upsert_of_all_mem (ps : List (String × ChunkMeta))
    (idx : VectorIndex) (h : ∀ p ∈ ps, p.1 ∈ keys idx) :
    (ps.foldl (fun acc q => upsert acc q.1 q.2) idx).length = idx.length := by
  induction ps generalizing idx with
  | nil => rfl
  | cons p ps ih =>
    simp only [List.foldl_cons]
    rw [ih (upsert idx p.1 p.2) (fun q hq =>
      keys_upsert_subset idx p.1 p.2 q.1 (h q (List.mem_cons_of_mem p hq)))]
    exact length_upsert_of_mem idx p.1 p.2 (h p (List.mem_cons_self p ps))

/-- **C1** — Ingestion is idempotent: ingesting the same document twice
yields the same `chunk_ids` list both times, and the number of chunks stored
in the VectorIndex after the second ingestion equals the number stored after
the first (upsert on an existing id overwrites rather than duplicates). -/
theorem c1_ingest_idempotent (idx : VectorIndex) (source : String)
    (text : List Char) (size overlap : ℕ) :
    (ingestDoc (ingestDoc idx source text size overlap).2 source text size overlap).1 =
      (ingestDoc idx source text size overlap).1 ∧
    (ingestDoc (ingestDoc idx source text size overlap).2 source text size overlap).2.length =
      (ingestDoc idx source text size overlap).2.length := by
  constructor
  · rfl
  · unfold ingestDoc
    set chunks := (chunk text size overlap).getD []
    set pairs := chunks.map (fun c =>
      (fingerprint source c.2 c.1, ChunkMeta.mk source c.1 c.2))
    simp only
    exact length_foldl_upsert_of_all_mem pairs _
      (fun p hp => (keys_foldl_upsert pairs idx).1 p hp)

theorem rankLE_trans (a b c : Scored) :
    rankLE a b → rankLE b c → rankLE a c := by
  simp only [rankLE, decide_eq_true_eq]
  exact le_trans

theorem rankLE_total (a b : Scored) : rankLE a b || rankLE b a := by
  simp only [rankLE, Bool.or_eq_true, decide_eq_true_eq]
  exact le_total _ _

/-- The rank order spelled out: descending similarity, ties by ascending
sequence index, then by chunk id. -/
theorem rankLE_iff (a b : Scored) :
    rankLE a b = true ↔
      b.similarity < a.similarity ∨
      (a.similarity = b.similarity ∧
        (a.chunk.sequence_index < b.chunk.sequence_index ∨
         (a.chunk.sequence_index = b.chunk.sequence_index ∧
          a.chunk.id ≤ b.chunk.id))) := by
  simp only [rankLE, decide_eq_true_eq, rankKey, Prod.Lex.le_iff, neg_lt_neg_iff,
    neg_inj]

theorem retrieveScored_pairwise (sim : StoredChunk → ℚ) (k : ℕ) (t : ℚ)
    (f : QFilter) (idx : List StoredChunk) :
    (retrieveScored sim k t f idx).Pairwise (fun a b => rankLE a b = true) := by
  unfold retrieveScored
  have hsorted :
      (((idx.filter (fun c => matchesFilter f c)).map
        (fun c => Scored.mk c (sim c))).mergeSort rankLE).Pairwise
        (fun a b => rankLE a b) :=
    List.sorted_mergeSort rankLE_trans rankLE_total _
  exact List.Pairwise.sublist
    ((List.filter_sublist _).trans (List.take_sublist _ _)) hsorted

theorem retrieveScored_mem (sim : StoredChunk → ℚ) (k : ℕ) (t : ℚ)
    (f : QFilter) (idx : List StoredChunk) (s : Scored)
    (hs : s ∈ retrieveScored sim k t f idx) :
    s.chunk ∈ idx ∧ matchesFilter f s.chunk = true ∧ s.similarity = sim s.chunk ∧
    t ≤ s.similarity := by
  unfold retrieveScored at hs
  simp only at hs
  have ht : t ≤ s.similarity := by
    have := (List.mem_filter.mp hs).2
    simpa using this
  have hmem := (List.mem_filter.mp hs).1
  have hmem2 := List.mem_of_mem_take hmem
  rw [List.mem_mergeSort] at hmem2
  rw [List.mem_map] at hmem2
  obtain ⟨c, hc, hsc⟩ := hmem2
  rw [List.mem_filter] at hc
  refine ⟨?_, ?_, ?_, ht⟩
  · rw [← hsc]; exact hc.1
  · rw [← hsc]; exact hc.2
  · rw [← hsc]

/-- **C3** — Retrieval contract: for every question embedding, `k > 0`,
threshold and filter, `retrieve` returns at most `k` results; every returned
result has `similarity ≥ score_threshold`; results are ordered by descending
similarity with ties broken by ascending `sequence_index` then by chunk id;
every result is a genuine filtered index entry (never padded); and when
nothing clears the threshold the result is the empty sequence, not an
error. -/
theorem c3_retrieve_contract (sim : StoredChunk → ℚ) (k : ℕ) (t : ℚ)
    (f : QFilter) (idx : List StoredChunk) (hk : 0 < k) :
    (retrieve sim k t f idx).length ≤ k ∧
    (∀ r ∈ retrieve sim k t f idx, t ≤ r.similarity) ∧
    (retrieve sim k t f idx).Pairwise
      (fun a b => b.similarity ≤ a.similarity) ∧
    (retrieveScored sim k t f idx).Pairwise (fun a b =>
      b.similarity < a.similarity ∨
      (a.similarity = b.similarity ∧
        (a.chunk.sequence_index < b.chunk.sequence_index ∨
         (a.chunk.sequence_index = b.chunk.sequence_index ∧
          a.chunk.id ≤ b.chunk.id)))) ∧
    (∀ r ∈ retrieve sim k t f idx, ∃ c ∈ idx,
        matchesFilter f c = true ∧ r = project (Scored.mk c (sim c))) ∧
    ((∀ c ∈ idx, matchesFilter f c = true → sim c < t) →
      retrieve sim k t f idx = []) := by
  have hfull := (retrieveScored_pairwise sim k t f idx).imp
    (fun hab => (rankLE_iff _ _).mp hab)
  refine ⟨?_, ?_, ?_, hfull, ?_, ?_⟩
  · unfold retrieve retrieveScored
    simp only [List.length_map]
    exact le_trans (List.length_filter_le _ _) (List.length_take_le _ _)
  · intro r hr
    rw [retrieve, List.mem_map] at hr
    obtain ⟨s, hs, hpr⟩ := hr
    have := (retrieveScored_mem sim k t f idx s hs).2.2.2
    rw [← hpr]
    exact this
  · rw [retrieve]
    rw [List.pairwise_map]
    exact hfull.imp (fun hab => by
      rcases hab with h | ⟨h, _⟩
      · exact le_of_lt h
      · exact le_of_eq h.symm)
  · intro r hr
    rw [retrieve, List.mem_map] at hr
    obtain ⟨s, hs, hpr⟩ := hr
    obtain ⟨hcm, hcf, hcs, _⟩ := retrieveScored_mem sim k t f idx s hs
    refine ⟨s.chunk, hcm, hcf, ?_⟩
    rw [← hpr]
    cases s with
    | mk c v =>
      simp only at hcs
      rw [hcs]
  · intro hall
    rw [retrieve]
    have : retrieveScored sim k t f idx = [] := by
      unfold retrieveScored
      simp only
      rw [List.filter_eq_nil_iff]
      intro s hsmem
      have hs2 := List.mem_of_mem_take hsmem
      rw [List.mem_mergeSort, List.mem_map] at hs2
      obtain ⟨c, hc, hsc⟩ := hs2
      rw [List.mem_filter] at hc
      have hlt := hall c hc.1 hc.2
      rw [← hsc]
      simp only [decide_eq_true_eq, not_le]
      exact hlt
    rw [this]
    rfl

/-- Witness for C3 on a one-chunk index with `k = 1`. -/
theorem c3_retrieve_contract_witness :
    0 < 1 ∧
    (retrieve (fun _ => (1 : ℚ)/2) 1 0 ⟨none, none, none⟩
      [⟨"id0", "doc.txt", none, 0, "2025-11-06", "hello"⟩]).length ≤ 1 :=
  ⟨Nat.one_pos,
   (c3_retrieve_contract (fun _ => (1 : ℚ)/2) 1 0 ⟨none, none, none⟩
      [⟨"id0", "doc.txt", none, 0, "2025-11-06", "hello"⟩] Nat.one_pos).1⟩

theorem filter_ge_length_mono (l : List Scored) {t1 t2 : ℚ} (h : t1 ≤ t2) :
    (l.filter (fun s => t2 ≤ s.similarity)).length ≤
      (l.filter (fun s => t1 ≤ s.similarity)).length := by
  induction l with
  | nil => simp
  | cons a l ih =>
    simp only [List.filter_cons]
    by_cases h2 : t2 ≤ a.similarity
    · have h1 : t1 ≤ a.similarity := le_trans h h2
      simp [h1, h2]
      omega
    · by_cases h1 : t1 ≤ a.similarity
      · simp [h1, h2]
        omega
      · simp [h1, h2]
        exact ih

/-- **C4** — Threshold monotonicity: for fixed question embedding, `k` and
filter, raising `score_threshold` never increases the number of returned
sources. -/
theorem c4_threshold_monotone (sim : StoredChunk → ℚ) (k : ℕ) (f : QFilter)
    (idx : List StoredChunk) (t1 t2 : ℚ) (h : t1 ≤ t2) :
    (retrieve sim k t2 f idx).length ≤ (retrieve sim k t1 f idx).length := by
  unfold retrieve retrieveScored
  simp only [List.length_map]
  exact filter_ge_length_mono _ h

/-- Witness for C4 at thresholds `0 ≤ 1/2` on a one-chunk index. -/
theorem c4_threshold_monotone_witness :
    (0 : ℚ) ≤ 1/2 ∧
    (retrieve (fun _ => (1 : ℚ)/4) 2 (1/2) ⟨none, none, none⟩
        [⟨"id0", "doc.txt", none, 0, "2025-11-06", "hello"⟩]).length ≤
      (retrieve (fun _ => (1 : ℚ)/4) 2 0 ⟨none, none, none⟩
        [⟨"id0", "doc.txt", none, 0, "2025-11-06", "hello"⟩]).length :=
  ⟨by norm_num,
   c4_threshold_monotone (fun _ => (1 : ℚ)/4) 2 ⟨none, none, none⟩
     [⟨"id0", "doc.txt", none, 0, "2025-11-06", "hello"⟩] 0 (1/2) (by norm_num)⟩

/-- **C2** — Anonymization touches only the LLM-bound copy: `compose`
invokes the LLM on the prompt built from anonymized snippet text, returns
the `retrievedSources` list unchanged, and the snippet the UI renders for
each returned source is the original, non-anonymized text. -/
theorem c2_anonymization_frame (anonymize llm : String → String)
    (question : String) (sources : List RetrievedSource) :
    (compose anonymize llm question sources).sources = sources ∧
    (compose anonymize llm question sources).text =
      llm (promptFor anonymize question sources) ∧
    (displaySources (compose anonymize llm question sources).sources).map
        (fun c => c.snippet) = sources.map (fun s => s.snippet) := by
  refine ⟨rfl, rfl, ?_⟩
  simp [displaySources, compose, renderSource, List.map_map]

/-- **C6 counterexample** — the claim fails as stated: a user-supplied
`score_threshold` of `0` (a float the spec allows, `[0,1]`) is falsy in
JavaScript, so `parseFloat(...) || 0.6` replaces it and the body carries
`0.6`, not the supplied `0`. -/
theorem c6_counterexample :
    (buildQueryBody "q" (some 2) (some 0) "").score_threshold = 6/10 ∧
    ((6 : ℚ)/10) ≠ 0 := by
  constructor
  · simp [buildQueryBody, jsRatOr]
  · norm_num

/-- **C6 (amended)** — the body posted to `/query` carries `k` equal to the
user-supplied integer when a *nonzero* one is given and `3` when the field
is empty/unparsable, and `score_threshold` equal to the user-supplied float
when a *nonzero* one is given and `0.6` when the field is
empty/unparsable; a supplied `0` falls back to the default as well. -/
theorem c6_amended_query_defaults (q src : String) (x : Int) (y : ℚ)
    (hx : x ≠ 0) (hy : y ≠ 0) :
    (buildQueryBody q (some x) (some y) src).k = x ∧
    (buildQueryBody q (some x) (some y) src).score_threshold = y ∧
    (buildQueryBody q none none src).k = 3 ∧
    (buildQueryBody q none none src).score_threshold = 6/10 ∧
    (buildQueryBody q (some 0) (some 0) src).k = 3 ∧
    (buildQueryBody q (some 0) (some 0) src).score_threshold = 6/10 := by
  refine ⟨?_, ?_, rfl, rfl, ?_, ?_⟩
  · simp [buildQueryBody, jsIntOr, hx]
  · simp [buildQueryBody, jsRatOr, hy]
  · simp [buildQueryBody, jsIntOr]
  · simp [buildQueryBody, jsRatOr]

/-- Witness for the amended C6 at `k = 5`, `score_threshold = 7/10`. -/
theorem c6_amended_query_defaults_witness :
    (5 : Int) ≠ 0 ∧ (buildQueryBody "q" (some 5) (some (7/10)) "").k = 5 :=
  ⟨by norm_num,
   (c6_amended_query_defaults "q" "" 5 (7/10) (by norm_num) (by norm_num)).1⟩

/-- **C7** — Unsupported media types are rejected before any processing:
when no file is a PDF or plain text, `processFiles` issues no request to
the ingest endpoint (validation error, no side effects); and whenever a
request is issued, its payload contains only valid files drawn from the
input list, so invalid files are excluded even when mixed with valid
ones. -/
theorem c7_reject_unsupported (files mixed payload : List FileInfo)
    (h : ∀ f ∈ files, pdfFile f = false ∧ plainTextFile f = false) :
    processFiles files = none ∧
    (processFiles mixed = some payload →
      ∀ f ∈ payload, validFile f = true ∧ f ∈ mixed) := by
  constructor
  · unfold processFiles
    have hnil : files.filter validFile = [] := by
      rw [List.filter_eq_nil_iff]
      intro f hf
      have h2 := h f hf
      simp [validFile, h2.1, h2.2]
    simp [hnil]
  · intro hp f hf
    unfold processFiles at hp
    by_cases he : (mixed.filter validFile).isEmpty
    · simp [he] at hp
    · simp [he] at hp
      rw [← hp] at hf
      have hf2 := List.mem_filter.mp hf
      exact ⟨hf2.2, hf2.1⟩

/-- Witness for C7: a PNG-only list is rejected; the mixed-list clause is
instantiated with a text file plus the PNG. -/
theorem c7_reject_unsupported_witness :
    (∀ f ∈ [FileInfo.mk "img.png" "image/png" 10],
      pdfFile f = false ∧ plainTextFile f = false) ∧
    processFiles [FileInfo.mk "img.png" "image/png" 10] = none :=
  ⟨by decide,
   (c7_reject_unsupported [FileInfo.mk "img.png" "image/png" 10]
      [FileInfo.mk "a.txt" "text/plain" 5, FileInfo.mk "img.png" "image/png" 10]
      [FileInfo.mk "a.txt" "text/plain" 5] (by decide)).1⟩

/-- The query-history update of `handleQuerySuccess`: the new record lands
at index 0 and at most 10 records remain. -/
theorem handleQuerySuccess_spec (st : UIState) (result : QueryResponse)
    (query now : String) :
    (handleQuerySuccess st result query now).queries.head? =
      some (QueryRecord.mk query result.answer result.sources now) ∧
    (handleQuerySuccess st result query now).queries.length ≤ 10 := by
  simp only [handleQuerySuccess]
  by_cases hlen :
      (QueryRecord.mk query result.answer result.sources now ::
        st.queries).length > 10
  · rw [if_pos hlen]
    constructor
    · rw [show (10 : ℕ) = 9 + 1 from rfl, List.take_succ_cons, List.head?_cons]
    · rw [List.length_take]
      exact min_le_left _ _
  · rw [if_neg hlen]
    exact ⟨List.head?_cons, by omega⟩

/-- **C9** — Query-history invariant: after every successful query the
newest QueryRecord sits at index 0 of the client-side `queries` list and
the list holds at most 10 records; since `handleQuerySuccess` (the only
operation that grows the list) re-establishes the bound unconditionally
and deletion never adds records, the bound is preserved by every list
update. -/
theorem c9_query_history_invariant (st : UIState) (result : QueryResponse)
    (query now : String) :
    (handleQuerySuccess st result query now).queries.head? =
      some (QueryRecord.mk query result.answer result.sources now) ∧
    (handleQuerySuccess st result query now).queries.length ≤ 10 :=
  handleQuerySuccess_spec st result query now

/-- **C8** — Similarity precision: when the similarity capability maps into
`[0,1]`, every retrieved similarity lies in `[0,1]`; the query record stored
by `handleQuerySuccess` keeps the full-precision sources exactly as
received from the backend; and the display layer rounds to a whole percent
only in the rendered card, leaving the snippet and the stored value
untouched. -/
theorem c8_similarity_precision (sim : StoredChunk → ℚ) (k : ℕ) (t : ℚ)
    (f : QFilter) (idx : List StoredChunk) (st : UIState)
    (result : QueryResponse) (query now : String)
    (hsim : ∀ c ∈ idx, 0 ≤ sim c ∧ sim c ≤ 1) :
    (∀ r ∈ retrieve sim k t f idx, 0 ≤ r.similarity ∧ r.similarity ≤ 1) ∧
    ((handleQuerySuccess st result query now).queries.head?.map
        (fun qr => qr.sources) = some result.sources) ∧
    (∀ s ∈ result.sources,
      (renderSource s).similarityPercent = jsRound (s.similarity * 100) ∧
      (renderSource s).snippet = s.snippet) := by
  refine ⟨?_, ?_, fun s _ => ⟨rfl, rfl⟩⟩
  · intro r hr
    rw [retrieve, List.mem_map] at hr
    obtain ⟨s, hs, hpr⟩ := hr
    obtain ⟨hcm, _, hcs, _⟩ := retrieveScored_mem sim k t f idx s hs
    have hb := hsim s.chunk hcm
    rw [← hpr]
    simp only [project]
    rw [hcs]
    exact hb
  · rw [(handleQuerySuccess_spec st result query now).1]
    rfl

/-- Witness for C8 on a one-chunk index with similarity 1/2. -/
theorem c8_similarity_precision_witness :
    (∀ c ∈ [StoredChunk.mk "id0" "doc.txt" none 0 "2025-11-06" "hello"],
      0 ≤ (fun _ : StoredChunk => (1 : ℚ)/2) c ∧
        (fun _ : StoredChunk => (1 : ℚ)/2) c ≤ 1) ∧
    (∀ r ∈ retrieve (fun _ => (1 : ℚ)/2) 1 0 ⟨none, none, none⟩
        [StoredChunk.mk "id0" "doc.txt" none 0 "2025-11-06" "hello"],
      0 ≤ r.similarity ∧ r.similarity ≤ 1) :=
  ⟨by intro c _; norm_num,
   (c8_similarity_precision (fun _ => (1 : ℚ)/2) 1 0 ⟨none, none, none⟩
      [StoredChunk.mk "id0" "doc.txt" none 0 "2025-11-06" "hello"]
      (UIState.mk [] []) (QueryResponse.mk "a" []) "q" "t"
      (by intro c _; norm_num)).1⟩

/-- Folding the upload step preserves uniqueness of document names. -/
theorem upload_foldl_nodup (files : List FileInfo) (n : ℕ) (now : String) :
    ∀ docs : List DocEntry, (docs.map (fun d => d.name)).Nodup →
    ((files.foldl (fun docs file =>
        if docs.any (fun doc => doc.name = file.name) then docs
        else docs ++ [DocEntry.mk file.name file.size file.type now n])
      docs).map (fun d => d.name)).Nodup := by
  induction files with
  | nil => exact fun docs h => h
  | cons f fs ih =>
    intro docs h
    simp only [List.foldl_cons]
    apply ih
    by_cases hany : docs.any (fun doc => doc.name = f.name) = true
    · rw [if_pos hany]
      exact h
    · rw [if_neg hany]
      rw [List.map_append]
      refine List.Nodup.append h (by simp) ?_
      intro a ha hb
      simp only [List.map_cons, List.map_nil, List.mem_singleton] at hb
      rw [List.mem_map] at ha
      obtain ⟨d, hd, hdn⟩ := ha
      rw [List.any_eq_true] at hany
      push_neg at hany
      have hne := hany d hd
      apply hne
      simp [hdn.trans hb]

/-- **C10** — Document-list uniqueness invariant: if every document name
appears at most once, then after `handleUploadSuccess` (which appends an
entry only when no existing entry has the same name) names are still
unique; `deleteDocument` preserves uniqueness and removes every entry with
the given name. -/
theorem c10_document_uniqueness (st : UIState) (n : ℕ)
    (files : List FileInfo) (now docName : String)
    (h : (st.documents.map (fun d => d.name)).Nodup) :
    ((handleUploadSuccess st n files now).documents.map
      (fun d => d.name)).Nodup ∧
    ((deleteDocument st docName).documents.map (fun d => d.name)).Nodup ∧
    (∀ d ∈ (deleteDocument st docName).documents, d.name ≠ docName) := by
  refine ⟨?_, ?_, ?_⟩
  · exact upload_foldl_nodup files (n / files.length) now st.documents h
  · exact List.Nodup.sublist (List.Sublist.map _ (List.filter_sublist _)) h
  · intro d hd
    have hd2 := (List.mem_filter.mp hd).2
    simpa using hd2

/-- Witness for C10 starting from the empty client state. -/
theorem c10_document_uniqueness_witness :
    (((UIState.mk [] []).documents.map (fun d => d.name)).Nodup) ∧
    ((handleUploadSuccess (UIState.mk [] []) 4
        [FileInfo.mk "a.txt" "text/plain" 5] "d").documents.map
      (fun d => d.name)).Nodup :=
  ⟨by simp,
   (c10_document_uniqueness (UIState.mk [] []) 4
      [FileInfo.mk "a.txt" "text/plain" 5] "d" "x" (by simp)).1⟩

end RAG
